import Mathlib

/-!
Shallow embedding of the gifski quantization pipeline (`src/lib.rs`):
the `make_frames` sliding-window loop, the importance-map arithmetic,
the `quantize` quality selection, the `write_frames` event sequence and
the `colordiff` metric.  The external palette kernel (imagequant) is a
parameter; the screen blit (gif_dispose) is modelled from the spec.
-/

set_option autoImplicit false

universe u v

/-- One RGBA pixel with four 8-bit channels, mirroring `rgb::RGBA8`. -/
structure RGBA8 where
  r : Fin 256
  g : Fin 256
  b : Fin 256
  a : Fin 256
deriving DecidableEq

/-- A raster image: `width` plus a list of pixel rows, mirroring `imgref::ImgVec`
(with `stride = width`, which holds for every buffer built by this crate). -/
structure Img (α : Type u) where
  width : Nat
  rows : List (List α)
deriving DecidableEq

/-- Height of an image is its number of rows. -/
def Img.height {α : Type u} (im : Img α) : Nat := im.rows.length

/-- Weighted squared color difference, from `colordiff` in `src/lib.rs`
(lines 336-344): any pixel with alpha 0 is maximally different; otherwise
`2*dr^2 + 3*dg^2 + db^2` computed exactly (the i16/i32/u32 arithmetic in the
source cannot overflow for 8-bit channels). -/
def colordiff (x y : RGBA8) : Nat :=
  if x.a = 0 ∨ y.a = 0 then 255*255*6
  else
    let dr := ((x.r.val : Int) - (y.r.val : Int)).natAbs
    let dg := ((x.g.val : Int) - (y.g.val : Int)).natAbs
    let db := ((x.b.val : Int) - (y.b.val : Int)).natAbs
    dr * dr * 2 + dg * dg * 3 + db * db

/-- Importance value for a pixel of the current frame given the corresponding
pixel of the lookahead frame, from line 281 of `src/lib.rs`:
`255 - (colordiff(a,b) / (255*255*6/170)) as u8`.  The quotient is at most
170, so the `as u8` cast in the source is exact and is omitted here. -/
def impNextVal (a b : RGBA8) : Nat :=
  255 - colordiff a b / (255*255*6/170)

/-- Next-based importance recomputation from lines 277-282 of `src/lib.rs`:
zip the rows of the lookahead frame with the rows of the current frame and map
each pixel pair through `impNextVal` (lookahead pixel first, as in the source).
Row and column zips truncate to the shorter side, as iterator `zip` does. -/
def nextImportance (next img : Img RGBA8) : List Nat :=
  ((next.rows.zip img.rows).map
    (fun rr => (rr.1.zip rr.2).map (fun pp => impNextVal pp.1 pp.2))).flatten

/-- Previous-based attenuation of one map entry, from lines 303-312 of
`src/lib.rs`.  `a` is the screen pixel, `b` the current-frame pixel.  All
intermediate values fit their machine types (proved below), so the `u16`/`u8`
casts of the source are exact and omitted. -/
def attenPix (minDiff : Nat) (a b : RGBA8) (px : Nat) : Nat :=
  let diff := colordiff a b
  if diff < minDiff then 0
  else
    let t := diff / 32
    min (t * t) 256 * px / 256

/-- In-place attenuation of one chunk of the importance map against one
(screen row, image row) pair; entries beyond the zipped length keep their
previous value, as the source's `for_each` over a `zip` leaves them untouched. -/
def attenRow (minDiff : Nat) : List Nat → List (RGBA8 × RGBA8) → List Nat
  | px, [] => px
  | [], _ => []
  | p :: ps, ab :: abs' => attenPix minDiff ab.1 ab.2 p :: attenRow minDiff ps abs'

/-- Walk the zipped (screen row, image row) pairs over the flat importance
buffer, peeling one `w`-sized chunk per pair, mirroring
`importance_map.chunks_mut(w).zip(...)`: buffer entries beyond the row pairs,
and pairs beyond the buffer, are simply left over, as the in-place `for_each`
never visits them.  (`w = 0` panics in the source via `chunks_mut`; here it
returns the buffer unchanged.) -/
def attenuateGo (minDiff w : Nat) : List (List RGBA8 × List RGBA8) → List Nat → List Nat
  | [], m => m
  | _ :: _, [] => []
  | rr :: rrs, x :: xs =>
    attenRow minDiff ((x :: xs).take w) (rr.1.zip rr.2) ++
      attenuateGo minDiff w rrs ((x :: xs).drop w)

/-- Previous-based importance attenuation from lines 295-313 of `src/lib.rs`:
chunk the flat map by the image width, zip with (screen rows, image rows) and
update each visited entry with `attenPix`. -/
def attenuate (minDiff w : Nat) (screenRows imgRows : List (List RGBA8)) (m : List Nat) : List Nat :=
  attenuateGo minDiff w (screenRows.zip imgRows) m

/-- The running screen: rows of RGBA pixels (`gif_dispose::Screen::pixels`). -/
abbrev Screen := List (List RGBA8)

/-- The fully transparent pixel `RGBA8::new(0,0,0,0)`. -/
def transparentPx : RGBA8 := ⟨0, 0, 0, 0⟩

/-- A fresh screen of the given dimensions, filled with transparent pixels,
as built by `gif_dispose::Screen::new(width, height, RGBA8::new(0,0,0,0), None)`. -/
def newScreen (w h : Nat) : Screen :=
  List.replicate h (List.replicate w transparentPx)

/-- A quantized frame, mirroring `GIFFrame` in `src/lib.rs`: palette-indexed
raster, palette, and delay in centiseconds. -/
structure GIFFrame where
  image : Img Nat
  pal : List RGBA8
  delay : Nat
deriving DecidableEq

/-- Position of the first palette entry with alpha 0, from line 321 of
`src/lib.rs`: `image8_pal.iter().position(|p| p.a == 0)`. -/
def findTransparentIndex : List RGBA8 → Option Nat
  | [] => none
  | p :: ps => if p.a = 0 then some 0 else (findTransparentIndex ps).map (· + 1)

/-- Modelled from the spec: `gif_dispose::Screen::blit` is an external
collaborator (its source is not in this repository).  Per §3 "Screen" and
§4.3 step 6 of the spec: palette lookup with disposal `Keep` at offset (0,0);
a pixel whose index equals the transparent index leaves the screen pixel
untouched; every other pixel is replaced by its palette entry.  An
out-of-palette index is mapped to the transparent color. -/
def blitPix (pal : List RGBA8) (tidx : Option Nat) (scpx : RGBA8) (idx : Nat) : RGBA8 :=
  if tidx = some idx then scpx else pal.getD idx transparentPx

/-- Blit one indexed row onto one screen row; screen pixels beyond the frame
row are kept. -/
def blitRow (pal : List RGBA8) (tidx : Option Nat) : List RGBA8 → List Nat → List RGBA8
  | s, [] => s
  | [], _ => []
  | sp :: s', ix :: ixs => blitPix pal tidx sp ix :: blitRow pal tidx s' ixs

/-- Blit an indexed raster onto the screen row by row; screen rows beyond the
frame are kept. -/
def blit (pal : List RGBA8) (tidx : Option Nat) : Screen → List (List Nat) → Screen
  | s, [] => s
  | [], _ => []
  | r :: rs, ir :: irs => blitRow pal tidx r ir :: blit pal tidx rs irs

/-- Replay one quantized frame onto the screen exactly as line 329 of
`src/lib.rs` does: the transparent index is located with `findTransparentIndex`. -/
def blitFrame (s : Screen) (f : GIFFrame) : Screen :=
  blit f.pal (findTransparentIndex f.pal) s f.image.rows

/-- Screen state after replaying a list of quantized frames in order. -/
def foldBlits (init : Screen) (outs : List GIFFrame) : Screen :=
  outs.foldl blitFrame init

/-- Encoder settings, mirroring `Settings` in `src/lib.rs`. -/
structure Settings where
  width : Option Nat
  height : Option Nat
  quality : Nat
  once : Bool
  fast : Bool
deriving DecidableEq

/-- One invocation of the external palette kernel, recording everything
`Writer::quantize` passes to imagequant, plus the importance map as it stood
before the previous-based attenuation (`premap`) for stating the ordering
invariants. -/
structure QuantCall where
  image : Img RGBA8
  premap : List Nat
  impMap : List Nat
  background : Option Screen
  quality : Nat
  fast : Bool
deriving DecidableEq

/-- Quality bound passed to `liq.set_quality(0, quality)`, from lines 160-165
of `src/lib.rs`: `settings.quality` when a background (previous frame) exists,
100 for the first frame. -/
def quantizeQuality (background : Option Screen) (s : Settings) : Nat :=
  if background.isSome then s.quality else 100

/-- The external palette kernel (imagequant), abstracted: from a kernel
invocation it produces the indexed raster and the palette. -/
abbrev Kernel := QuantCall → Img Nat × List RGBA8

/-- The dimension-mismatch message from lines 272-273 of `src/lib.rs`. -/
def dimErrorMsg (k nw nh w h : Nat) : String :=
  "Frame " ++ toString k ++ " has wrong size (" ++ toString nw ++ "×" ++
    toString nh ++ ", expected " ++ toString w ++ "×" ++ toString h ++ ")"

/-- Dimension check and next-based importance recomputation from lines
270-283 of `src/lib.rs`, applied to whatever frame the shifted `next_frame`
slot holds (`look`): on a size mismatch the loop fails, otherwise the map is
refilled from the zipped rows; with no lookahead the previous map is kept. -/
def mfCheck (i : Nat) (image : Img RGBA8) (look : Option (Img RGBA8 × Nat)) (m : List Nat) :
    Except String (List Nat) :=
  match look with
  | some nd =>
    if nd.1.width ≠ image.width ∨ nd.1.height ≠ image.height then
      .error (dimErrorMsg (i+1) nd.1.width nd.1.height image.width image.height)
    else .ok (nextImportance nd.1 image)
  | none => .ok m

/-- Straight-line part of one loop iteration (lines 285-329 of `src/lib.rs`)
once the dimension check has passed and the screen exists: previous-based
attenuation for `i > 0`, the kernel invocation assembled as `Writer::quantize`
does it, and the screen replay.  Returns the recorded call, the pushed frame,
the updated screen and the importance buffer handed to the next iteration. -/
def mfBody (K : Kernel) (s : Settings) (i : Nat) (image : Img RGBA8) (delay : Nat)
    (scr : Screen) (m1 : List Nat) : QuantCall × GIFFrame × Screen × List Nat :=
  let m2 := if 0 < i then
      attenuate (80 + (100 - s.quality) * (100 - s.quality)) image.width scr image.rows m1
    else m1
  let bg : Option Screen := if 0 < i then some scr else none
  let call : QuantCall :=
    { image := image, premap := m1, impMap := m2, background := bg,
      quality := quantizeQuality bg s, fast := s.fast }
  let out := K call
  let frame : GIFFrame := ⟨out.1, out.2, delay⟩
  (call, frame, blit out.2 (findTransparentIndex out.2) scr out.1.rows, m2)

/-- The `while let` loop of `Writer::make_frames` (lines 262-330 of
`src/lib.rs`), processing the frame at index `i` with `rest` the frames after
it.  The source shifts the window at the top of the body, so during the
iteration for frame `i` the `next_frame` slot holds frame `i+2`: the
dimension check and the importance recomputation read `rest[1]?`.  Returns
the kernel invocations and the frames pushed to the write queue. -/
def mfLoop (K : Kernel) (s : Settings) (i : Nat) (image : Img RGBA8) (delay : Nat)
    (rest : List (Img RGBA8 × Nat)) (screen : Option Screen) (m : List Nat) :
    Except String (List QuantCall × List (Nat × GIFFrame)) :=
  match mfCheck i image rest[1]? m with
  | .error e => .error e
  | .ok m1 =>
    let scr := screen.getD (newScreen image.width image.height)
    let b := mfBody K s i image delay scr m1
    match rest with
    | [] => .ok ([b.1], [(i, b.2.1)])
    | p :: rest' =>
      match mfLoop K s (i+1) p.1 p.2 rest' (some b.2.2.1) b.2.2.2 with
      | .error e => .error e
      | .ok (cs, ps) => .ok (b.1 :: cs, (i, b.2.1) :: ps)

/-- `Writer::make_frames` (lines 246-333 of `src/lib.rs`): fails on an empty
queue, otherwise seeds the importance map with 255 at the size of frame 0's
buffer and runs the loop. -/
def makeFrames (K : Kernel) (s : Settings) (frames : List (Img RGBA8 × Nat)) :
    Except String (List QuantCall × List (Nat × GIFFrame)) :=
  match frames with
  | [] => .error "Found no usable frames to encode"
  | f :: rest => mfLoop K s 0 f.1 f.2 rest none (List.replicate (f.1.width * f.1.height) 255)

/-- Events observable from `Writer::write_frames` (lines 181-227 of
`src/lib.rs`): a progress-reporter tick, the lazy encoder construction, the
infinite-loop extension, and a frame emission with its header fields. -/
inductive WEvent where
  | increase : WEvent
  | encInit : Nat → Nat → WEvent
  | loopExt : WEvent
  | frameWritten : Nat → Nat → Nat → Option Nat → List (Fin 256 × Fin 256 × Fin 256) →
      List (List Nat) → WEvent
deriving DecidableEq

/-- Transparent index as the `for` loop of `write_frames` (lines 188-195)
computes it: the last palette entry with alpha 0 wins. -/
def writerTIdxAux : Option Nat → Nat → List RGBA8 → Option Nat
  | acc, _, [] => acc
  | acc, i, p :: ps => writerTIdxAux (if p.a = 0 then some i else acc) (i+1) ps

/-- Transparent index declared by the Writer for a palette. -/
def writerTransparentIndex (pal : List RGBA8) : Option Nat :=
  writerTIdxAux none 0 pal

/-- Packed RGB palette (alpha dropped), from line 194 of `src/lib.rs`. -/
def palToRGB (pal : List RGBA8) : List (Fin 256 × Fin 256 × Fin 256) :=
  pal.map (fun p => (p.r, p.g, p.b))

/-- The `for` loop of `Writer::write_frames`: per frame, first the reporter
tick (line 186), then the lazy encoder init with the loop extension unless
`once` (lines 197-206), then the frame emission (lines 212-224). -/
def writeFramesLoop (s : Settings) (inited : Bool) : List GIFFrame → List WEvent
  | [] => []
  | f :: fs =>
    WEvent.increase ::
      ((if inited then [] else
          WEvent.encInit f.image.width f.image.height ::
            (if s.once then [] else [WEvent.loopExt])) ++
        (WEvent.frameWritten f.image.width f.image.height f.delay
            (writerTransparentIndex f.pal) (palToRGB f.pal) f.image.rows ::
          writeFramesLoop s true fs))

/-- Event trace of `Writer::write_frames` over the in-order quantized frames. -/
def writeFrames (s : Settings) (fs : List GIFFrame) : List WEvent :=
  writeFramesLoop s false fs

/-- Project an event trace to its reporter ticks (`true`) and frame
emissions (`false`), dropping encoder-setup events. -/
def incFrameTag : WEvent → Option Bool
  | WEvent.increase => some true
  | WEvent.frameWritten _ _ _ _ _ _ => some false
  | _ => none

/-- Reduced trace of reporter ticks and frame emissions, in order. -/
def incFrameTags (evs : List WEvent) : List Bool :=
  evs.filterMap incFrameTag

/-- Decidable equality for pipeline results, so concrete runs can be settled
by `decide`. -/
instance exceptDecEq {ε : Type u} {α : Type v} [DecidableEq ε] [DecidableEq α] :
    DecidableEq (Except ε α) := fun x y =>
  match x, y with
  | .error e, .error e' =>
    if h : e = e' then .isTrue (congrArg Except.error h)
    else .isFalse (fun c => h (Except.error.inj c))
  | .ok a, .ok b =>
    if h : a = b then .isTrue (congrArg Except.ok h)
    else .isFalse (fun c => h (Except.ok.inj c))
  | .error _, .ok _ => .isFalse (fun c => Except.noConfusion c)
  | .ok _, .error _ => .isFalse (fun c => Except.noConfusion c)

/-- A trivial concrete kernel: empty raster, empty palette.  Used to evaluate
the pipeline on concrete inputs (the dimension check, the importance maps and
the call order do not depend on the kernel's output). -/
def kernel0 : Kernel := fun _ => (⟨0, []⟩, [])

/-- Concrete settings: quality 50, looping on, normal speed, no resize. -/
def settings0 : Settings := ⟨none, none, 50, false, false⟩

/-- A uniform image of the given dimensions. -/
def uniformImg (w h : Nat) (px : RGBA8) : Img RGBA8 :=
  ⟨w, List.replicate h (List.replicate w px)⟩

/-- An opaque black pixel. -/
def pxBlack : RGBA8 := ⟨0, 0, 0, 255⟩

/-- An opaque white pixel. -/
def pxWhite : RGBA8 := ⟨255, 255, 255, 255⟩

/-- A one-pixel quantized frame used as a concrete input to the Writer. -/
def gFrame0 : GIFFrame := ⟨⟨1, [[0]]⟩, [transparentPx], 1⟩

/-- C1.  The code does not implement the claimed consecutive dimension check:
during the iteration for frame `i` the shifted `next_frame` slot holds frame
`i+2`, so (first conjunct) the S4 input — frame 0 of size 8×8 followed by
frame 1 of size 8×4 — runs to completion with no dimension error at all, and
(second conjunct) when a third frame does trigger the check, the error
compares frame 0 with frame 2 yet names "Frame 1". -/
theorem dimension_check_misses_adjacent_mismatch :
    (makeFrames kernel0 settings0
        [(uniformImg 8 8 pxBlack, 1), (uniformImg 8 4 pxBlack, 1)]).isOk = true ∧
    makeFrames kernel0 settings0
        [(uniformImg 8 8 pxBlack, 1), (uniformImg 8 8 pxBlack, 1), (uniformImg 8 4 pxBlack, 1)] =
      .error "Frame 1 has wrong size (8×4, expected 8×8)" :=
  ⟨by decide, by decide⟩

/-- C2.  For the three-frame input black, white, black (all 1×1), the
importance map passed to the kernel for frame 0 is `[255]`: the code computes
it from frame 2 (identical to frame 0), not from the immediately following
frame 1 as claimed — the claimed formula against frame 1 yields 85, not 255. -/
theorem importance_map_uses_frame_after_next :
    ((makeFrames kernel0 settings0
        [(uniformImg 1 1 pxBlack, 1), (uniformImg 1 1 pxWhite, 1),
          (uniformImg 1 1 pxBlack, 1)]).toOption.map
      (fun r => r.1.map QuantCall.impMap)) = some [[255], [255], [255]] ∧
    255 - min 255 (colordiff pxWhite pxBlack * 170 / (255*255*6)) = 85 ∧
    (85 : Nat) ≠ 255 :=
  ⟨by decide, by decide, by decide⟩

/-- C6 counterexample.  The claim's equivalence fails on a pair of fully
transparent pixels: both have alpha 0, yet `colordiff` returns the maximum
255·255·6, not 0. -/
theorem colordiff_claim_false_on_transparent_pair :
    ¬ (colordiff transparentPx transparentPx = 0 ↔
        ((transparentPx.a ≠ 0 ∧ transparentPx.a ≠ 0 ∧
            transparentPx.r = transparentPx.r ∧ transparentPx.g = transparentPx.g ∧
            transparentPx.b = transparentPx.b) ∨
          (transparentPx.a = 0 ∧ transparentPx.a = 0))) := by decide

/-- C6 amended.  `colordiff x y = 0` iff both pixels have non-zero alpha and
their r, g, b channels are pairwise equal; a zero-alpha pixel on either side
always yields the maximum difference, never 0. -/
theorem colordiff_zero_iff_opaque_equal (x y : RGBA8) :
    colordiff x y = 0 ↔
      x.a ≠ 0 ∧ y.a ≠ 0 ∧ x.r = y.r ∧ x.g = y.g ∧ x.b = y.b := by
  unfold colordiff
  split
  · rename_i h
    constructor
    · intro hc; exact absurd hc (by norm_num)
    · rintro ⟨h1, h2, -⟩
      rcases h with h | h
      · exact (h1 h).elim
      · exact (h2 h).elim
  · rename_i h
    push_neg at h
    obtain ⟨h1, h2⟩ := h
    dsimp only
    simp only [h1, h2, ne_eq, not_false_eq_true, true_and]
    constructor
    · intro hz
      obtain ⟨hz12, hz3⟩ := Nat.add_eq_zero.mp hz
      obtain ⟨hz1, hz2⟩ := Nat.add_eq_zero.mp hz12
      have e1 : ((x.r.val : Int) - y.r.val).natAbs = 0 := by
        rcases Nat.mul_eq_zero.mp hz1 with h' | h'
        · exact mul_self_eq_zero.mp h'
        · exact absurd h' (by norm_num)
      have e2 : ((x.g.val : Int) - y.g.val).natAbs = 0 := by
        rcases Nat.mul_eq_zero.mp hz2 with h' | h'
        · exact mul_self_eq_zero.mp h'
        · exact absurd h' (by norm_num)
      have e3 : ((x.b.val : Int) - y.b.val).natAbs = 0 := mul_self_eq_zero.mp hz3
      exact ⟨Fin.val_inj.mp (by omega), Fin.val_inj.mp (by omega), Fin.val_inj.mp (by omega)⟩
    · rintro ⟨hr, hg, hb⟩
      rw [hr, hg, hb]
      simp

/-- C7.  An empty frame queue makes `make_frames` fail with exactly the
"Found no usable frames to encode" error. -/
theorem make_frames_empty_input (K : Kernel) (s : Settings) :
    makeFrames K s [] = .error "Found no usable frames to encode" := rfl

/-- C10.  All importance-map arithmetic stays in range: `colordiff` is at
most 255·255·6 = 390150, the next-based quotient is at most 170 so the
recomputed value lies in [85, 255] and the `u8` cast and subtraction are
exact, and the previous-based attenuation product is at most 65280 (fits
`u16`) with quotient at most 255 (fits `u8`). -/
theorem importance_arithmetic_bounds (x y : RGBA8) (px : Fin 256) (minDiff : Nat) :
    colordiff x y ≤ 255*255*6 ∧
    colordiff x y / (255*255*6/170) ≤ 170 ∧
    85 ≤ impNextVal x y ∧ impNextVal x y ≤ 255 ∧
    min (colordiff x y / 32 * (colordiff x y / 32)) 256 * px.val ≤ 65280 ∧
    min (colordiff x y / 32 * (colordiff x y / 32)) 256 * px.val / 256 ≤ 255 ∧
    attenPix minDiff x y px.val ≤ 255 := by
  have hb : colordiff x y ≤ 255*255*6 := by
    unfold colordiff
    split
    · exact Nat.le_refl _
    · dsimp only
      have hr : ((x.r.val : Int) - y.r.val).natAbs ≤ 255 := by omega
      have hg : ((x.g.val : Int) - y.g.val).natAbs ≤ 255 := by omega
      have hbb : ((x.b.val : Int) - y.b.val).natAbs ≤ 255 := by omega
      have m1 := Nat.mul_le_mul hr hr
      have m2 := Nat.mul_le_mul hg hg
      have m3 := Nat.mul_le_mul hbb hbb
      linarith
  have hq : colordiff x y / (255*255*6/170) ≤ 170 := by
    calc colordiff x y / (255*255*6/170) ≤ 255*255*6 / (255*255*6/170) :=
          Nat.div_le_div_right hb
      _ = 170 := by norm_num
  have hpx : px.val ≤ 255 := by omega
  have hmul : min (colordiff x y / 32 * (colordiff x y / 32)) 256 * px.val ≤ 65280 := by
    calc min (colordiff x y / 32 * (colordiff x y / 32)) 256 * px.val
        ≤ 256 * 255 := Nat.mul_le_mul (Nat.min_le_right _ _) hpx
      _ = 65280 := by norm_num
  have hdiv : min (colordiff x y / 32 * (colordiff x y / 32)) 256 * px.val / 256 ≤ 255 := by
    calc min (colordiff x y / 32 * (colordiff x y / 32)) 256 * px.val / 256
        ≤ 65280 / 256 := Nat.div_le_div_right hmul
      _ = 255 := by norm_num
  refine ⟨hb, hq, by unfold impNextVal; omega, by unfold impNextVal; omega, hmul, hdiv, ?_⟩
  unfold attenPix
  dsimp only
  split
  · exact Nat.le_refl 0 |>.trans (by norm_num)
  · exact hdiv

/-- C8 counterexample.  For a single quantized frame the reduced trace of
`write_frames` is tick-then-emit, not the claimed emit-then-tick: the
reporter's `increase()` runs at the top of the loop body, before
`write_frame`. -/
theorem increase_not_after_emission :
    incFrameTags (writeFrames settings0 [gFrame0]) = [true, false] ∧
    ([true, false] : List Bool) ≠ [false, true] :=
  ⟨by decide, by decide⟩

/-- C8 amended.  For every frame the Writer consumes, the progress reporter's
`increase()` is invoked exactly once, and the invocation happens before (not
after) that frame is emitted to the encoder: the reduced trace is exactly
tick, emit, tick, emit, ... -/
theorem increase_once_before_each_frame (s : Settings) (fs : List GIFFrame) :
    incFrameTags (writeFrames s fs) = (fs.map (fun _ => [true, false])).flatten := by
  suffices h : ∀ b : Bool, incFrameTags (writeFramesLoop s b fs) =
      (fs.map (fun _ => [true, false])).flatten from h false
  induction fs with
  | nil => intro b; rfl
  | cons f fs ih =>
    intro b
    cases b <;> cases ho : s.once <;>
      simpa [writeFramesLoop, incFrameTags, incFrameTag, ho] using ih true

/-- When no palette entry is transparent, the Writer's scan keeps its
accumulator. -/
theorem writerTIdxAux_no_transparent (ps : List RGBA8) :
    ∀ (acc : Option Nat) (i : Nat), (∀ p ∈ ps, p.a ≠ 0) → writerTIdxAux acc i ps = acc := by
  induction ps with
  | nil => intro acc i _; rfl
  | cons p ps ih =>
    intro acc i hall
    have hp : p.a ≠ 0 := hall p (List.mem_cons_self p ps)
    simp only [writerTIdxAux, if_neg hp]
    exact ih acc (i+1) (fun q hq => hall q (List.mem_cons_of_mem p hq))

/-- When exactly one entry is transparent, the Writer's scan lands on it. -/
theorem writerTIdxAux_unique (ps : List RGBA8) :
    ∀ (acc : Option Nat) (i j : Nat) (hj : j < ps.length), ps[j].a = 0 →
      (∀ k (hk : k < ps.length), ps[k].a = 0 → k = j) →
      writerTIdxAux acc i ps = some (i + j) := by
  induction ps with
  | nil => intro _ _ j hj; exact absurd hj (by simp)
  | cons p ps ih =>
    intro acc i j hj hz huniq
    cases j with
    | zero =>
      have hp : p.a = 0 := by simpa using hz
      simp only [writerTIdxAux, if_pos hp]
      have hall : ∀ q ∈ ps, q.a ≠ 0 := by
        intro q hq hq0
        obtain ⟨k, hk, rfl⟩ := List.getElem_of_mem hq
        have : k + 1 = 0 := huniq (k+1) (by simpa using Nat.succ_lt_succ hk) (by simpa using hq0)
        omega
      rw [writerTIdxAux_no_transparent ps (some i) (i+1) hall]
      simp
    | succ j' =>
      have hp : p.a ≠ 0 := by
        intro hp0
        have : 0 = j' + 1 := huniq 0 (by simp) (by simpa using hp0)
        omega
      simp only [writerTIdxAux, if_neg hp]
      have := ih acc (i+1) j' (by simpa using Nat.lt_of_succ_lt_succ hj)
        (by simpa using hz)
        (fun k hk hk0 => by
          have := huniq (k+1) (by simpa using Nat.succ_lt_succ hk) (by simpa using hk0)
          omega)
      rw [this]
      congr 1
      omega

/-- When exactly one entry is transparent, `position` finds it. -/
theorem findTransparentIndex_unique (ps : List RGBA8) :
    ∀ (j : Nat) (hj : j < ps.length), ps[j].a = 0 →
      (∀ k (hk : k < ps.length), ps[k].a = 0 → k = j) →
      findTransparentIndex ps = some j := by
  induction ps with
  | nil => intro j hj; exact absurd hj (by simp)
  | cons p ps ih =>
    intro j hj hz huniq
    cases j with
    | zero =>
      have hp : p.a = 0 := by simpa using hz
      simp [findTransparentIndex, hp]
    | succ j' =>
      have hp : p.a ≠ 0 := by
        intro hp0
        have : 0 = j' + 1 := huniq 0 (by simp) (by simpa using hp0)
        omega
      have := ih j' (by simpa using Nat.lt_of_succ_lt_succ hj) (by simpa using hz)
        (fun k hk hk0 => by
          have := huniq (k+1) (by simpa using Nat.succ_lt_succ hk) (by simpa using hk0)
          omega)
      simp [findTransparentIndex, hp, this]

/-- C9.  When a palette has exactly one entry with alpha 0, the transparent
index the Writer declares (last transparent entry wins in its loop) and the
transparent index `make_frames` uses when blitting (first transparent entry
via `position`) agree, and both equal that entry's position; when no entry
has alpha 0 the Writer declares no transparent index. -/
theorem transparent_index_agree (pal : List RGBA8) :
    (∀ j (hj : j < pal.length), pal[j].a = 0 →
      (∀ k (hk : k < pal.length), pal[k].a = 0 → k = j) →
      writerTransparentIndex pal = some j ∧ findTransparentIndex pal = some j) ∧
    ((∀ p ∈ pal, p.a ≠ 0) → writerTransparentIndex pal = none) := by
  constructor
  · intro j hj hz huniq
    refine ⟨?_, findTransparentIndex_unique pal j hj hz huniq⟩
    have := writerTIdxAux_unique pal none 0 j hj hz huniq
    simpa [writerTransparentIndex] using this
  · intro hall
    exact writerTIdxAux_no_transparent pal none 0 hall

/-- Witness for C9 at the concrete palette [black, transparent]: entry 1 is
the unique transparent entry and both scans return index 1. -/
theorem transparent_index_agree_witness :
    (1 < ([pxBlack, transparentPx] : List RGBA8).length ∧
      ([pxBlack, transparentPx] : List RGBA8)[1].a = 0) ∧
    writerTransparentIndex [pxBlack, transparentPx] = some 1 ∧
    findTransparentIndex [pxBlack, transparentPx] = some 1 :=
  ⟨⟨by decide, by decide⟩,
    (transparent_index_agree [pxBlack, transparentPx]).1 1 (by decide) (by decide) (by decide)⟩

theorem foldBlits_cons (sc : Screen) (f : GIFFrame) (fs : List GIFFrame) :
    foldBlits sc (f :: fs) = foldBlits (blitFrame sc f) fs := rfl

theorem mfBody_call_image (K : Kernel) (s : Settings) (i : Nat) (image : Img RGBA8)
    (delay : Nat) (scr : Screen) (m1 : List Nat) :
    (mfBody K s i image delay scr m1).1.image = image := rfl

theorem mfBody_call_premap (K : Kernel) (s : Settings) (i : Nat) (image : Img RGBA8)
    (delay : Nat) (scr : Screen) (m1 : List Nat) :
    (mfBody K s i image delay scr m1).1.premap = m1 := rfl

theorem mfBody_call_background_pos (K : Kernel) (s : Settings) (i : Nat) (image : Img RGBA8)
    (delay : Nat) (scr : Screen) (m1 : List Nat) (hi : 0 < i) :
    (mfBody K s i image delay scr m1).1.background = some scr := by
  simp [mfBody, hi]

theorem mfBody_call_quality_pos (K : Kernel) (s : Settings) (i : Nat) (image : Img RGBA8)
    (delay : Nat) (scr : Screen) (m1 : List Nat) (hi : 0 < i) :
    (mfBody K s i image delay scr m1).1.quality = s.quality := by
  simp [mfBody, hi, quantizeQuality]

theorem mfBody_call_impMap_pos (K : Kernel) (s : Settings) (i : Nat) (image : Img RGBA8)
    (delay : Nat) (scr : Screen) (m1 : List Nat) (hi : 0 < i) :
    (mfBody K s i image delay scr m1).1.impMap =
      attenuate (80 + (100 - s.quality) * (100 - s.quality)) image.width scr image.rows m1 := by
  simp [mfBody, hi]

theorem mfBody_call_background_zero (K : Kernel) (s : Settings) (image : Img RGBA8)
    (delay : Nat) (scr : Screen) (m1 : List Nat) :
    (mfBody K s 0 image delay scr m1).1.background = none := rfl

theorem mfBody_call_quality_zero (K : Kernel) (s : Settings) (image : Img RGBA8)
    (delay : Nat) (scr : Screen) (m1 : List Nat) :
    (mfBody K s 0 image delay scr m1).1.quality = 100 := rfl

theorem mfBody_screen_blit (K : Kernel) (s : Settings) (i : Nat) (image : Img RGBA8)
    (delay : Nat) (scr : Screen) (m1 : List Nat) :
    (mfBody K s i image delay scr m1).2.2.1 =
      blitFrame scr (mfBody K s i image delay scr m1).2.1 := rfl

/-- Loop invariant of `make_frames` from iteration `i ≥ 1` on, with `scr` the
screen entering the iteration: every kernel invocation `j` of the remaining
run carries frame index `i + j`, a background equal to `scr` updated by the
blits of the frames pushed before it, the non-first-frame quality, and an
importance map obtained by attenuating its pre-map against that same screen
state. -/
theorem mfLoop_invariant (rest : List (Img RGBA8 × Nat)) :
    ∀ (K : Kernel) (s : Settings) (i : Nat) (image : Img RGBA8) (delay : Nat)
      (scr : Screen) (m : List Nat)
      (calls : List QuantCall) (pushes : List (Nat × GIFFrame)),
      0 < i →
      mfLoop K s i image delay rest (some scr) m = .ok (calls, pushes) →
      calls.length = rest.length + 1 ∧ pushes.length = rest.length + 1 ∧
      ∀ j (hj : j < calls.length) (hj' : j < pushes.length),
        pushes[j].1 = i + j ∧
        calls[j].background = some (foldBlits scr ((pushes.take j).map Prod.snd)) ∧
        calls[j].quality = s.quality ∧
        calls[j].impMap =
          attenuate (80 + (100 - s.quality) * (100 - s.quality)) calls[j].image.width
            (foldBlits scr ((pushes.take j).map Prod.snd)) calls[j].image.rows
            calls[j].premap := by
  induction rest with
  | nil =>
    intro K s i image delay scr m calls pushes hi hok
    unfold mfLoop at hok
    cases hc : mfCheck i image (([] : List (Img RGBA8 × Nat)))[1]? m with
    | error e => rw [hc] at hok; exact absurd hok (by simp)
    | ok m1 =>
      rw [hc] at hok
      simp only [Option.getD_some] at hok
      rw [Except.ok.injEq, Prod.mk.injEq] at hok
      obtain ⟨hcalls, hpushes⟩ := hok
      subst hcalls; subst hpushes
      refine ⟨rfl, rfl, ?_⟩
      intro j hj hj'
      have hj0 : j = 0 := by simpa using hj
      subst hj0
      refine ⟨by simp, ?_, ?_, ?_⟩
      · simpa [foldBlits] using mfBody_call_background_pos K s i image delay scr m1 hi
      · simpa using mfBody_call_quality_pos K s i image delay scr m1 hi
      · simp only [List.getElem_cons_zero, List.take_zero, List.map_nil]
        rw [mfBody_call_image, mfBody_call_premap,
          mfBody_call_impMap_pos K s i image delay scr m1 hi]
        rfl
  | cons p rest' ih =>
    intro K s i image delay scr m calls pushes hi hok
    unfold mfLoop at hok
    cases hc : mfCheck i image ((p :: rest'))[1]? m with
    | error e => rw [hc] at hok; exact absurd hok (by simp)
    | ok m1 =>
      rw [hc] at hok
      simp only [Option.getD_some] at hok
      cases hrec : mfLoop K s (i+1) p.1 p.2 rest'
          (some (mfBody K s i image delay scr m1).2.2.1)
          (mfBody K s i image delay scr m1).2.2.2 with
      | error e => rw [hrec] at hok; exact absurd hok (by simp)
      | ok v =>
        obtain ⟨cs, ps⟩ := v
        rw [hrec] at hok
        rw [Except.ok.injEq, Prod.mk.injEq] at hok
        obtain ⟨hcalls, hpushes⟩ := hok
        subst hcalls; subst hpushes
        obtain ⟨hlc, hlp, hinv⟩ :=
          ih K s (i+1) p.1 p.2 (mfBody K s i image delay scr m1).2.2.1
            (mfBody K s i image delay scr m1).2.2.2 cs ps (Nat.succ_pos i) hrec
        refine ⟨by simpa using hlc, by simpa using hlp, ?_⟩
        intro j hj hj'
        cases j with
        | zero =>
          refine ⟨by simp, ?_, ?_, ?_⟩
          · simpa [foldBlits] using mfBody_call_background_pos K s i image delay scr m1 hi
          · simpa using mfBody_call_quality_pos K s i image delay scr m1 hi
          · simp only [List.getElem_cons_zero, List.take_zero, List.map_nil]
            rw [mfBody_call_image, mfBody_call_premap,
              mfBody_call_impMap_pos K s i image delay scr m1 hi]
            rfl
        | succ j' =>
          have hj2 : j' < cs.length := by simpa using Nat.lt_of_succ_lt_succ hj
          have hj2' : j' < ps.length := by simpa using Nat.lt_of_succ_lt_succ hj'
          obtain ⟨e1, e2, e3, e4⟩ := hinv j' hj2 hj2'
          have hscr : foldBlits scr
              ((((i, (mfBody K s i image delay scr m1).2.1) :: ps).take (j'+1)).map Prod.snd) =
              foldBlits (mfBody K s i image delay scr m1).2.2.1 ((ps.take j').map Prod.snd) := by
            rw [List.take_succ_cons, List.map_cons, foldBlits_cons, ← mfBody_screen_blit]
          refine ⟨?_, ?_, ?_, ?_⟩
          · simp only [List.getElem_cons_succ, e1]
            omega
          · simp only [List.getElem_cons_succ]
            rw [e2, hscr]
          · simpa using e3
          · simp only [List.getElem_cons_succ]
            rw [e4, hscr]

/-- Top-level invariant of `make_frames`: call `j` of a successful run is for
frame index `j`; frame 0 is quantized with no background at quality 100, and
each later frame with quality `settings.quality` against the screen obtained
by blitting all previously pushed frames onto the fresh canvas, which is also
the screen its importance map was attenuated against. -/
theorem makeFrames_invariant (K : Kernel) (s : Settings) (f0 : Img RGBA8 × Nat)
    (tl : List (Img RGBA8 × Nat)) (calls : List QuantCall) (pushes : List (Nat × GIFFrame))
    (hok : makeFrames K s (f0 :: tl) = .ok (calls, pushes)) :
    calls.length = tl.length + 1 ∧ pushes.length = tl.length + 1 ∧
    ∀ j (hj : j < calls.length) (hj' : j < pushes.length),
      pushes[j].1 = j ∧
      calls[j].background = (if j = 0 then none else
        some (foldBlits (newScreen f0.1.width f0.1.height) ((pushes.take j).map Prod.snd))) ∧
      calls[j].quality = (if j = 0 then 100 else s.quality) ∧
      (0 < j → calls[j].impMap =
        attenuate (80 + (100 - s.quality) * (100 - s.quality)) calls[j].image.width
          (foldBlits (newScreen f0.1.width f0.1.height) ((pushes.take j).map Prod.snd))
          calls[j].image.rows calls[j].premap) := by
  unfold makeFrames at hok
  unfold mfLoop at hok
  cases tl with
  | nil =>
    cases hc : mfCheck 0 f0.1 (([] : List (Img RGBA8 × Nat)))[1]?
        (List.replicate (f0.1.width * f0.1.height) 255) with
    | error e => rw [hc] at hok; exact absurd hok (by simp)
    | ok m1 =>
      rw [hc] at hok
      simp only [Option.getD_none] at hok
      rw [Except.ok.injEq, Prod.mk.injEq] at hok
      obtain ⟨hcalls, hpushes⟩ := hok
      subst hcalls; subst hpushes
      refine ⟨rfl, rfl, ?_⟩
      intro j hj hj'
      have hj0 : j = 0 := by simpa using hj
      subst hj0
      exact ⟨by simp, by simp [mfBody_call_background_zero],
        by simp [mfBody_call_quality_zero], by omega⟩
  | cons p tl' =>
    cases hc : mfCheck 0 f0.1 ((p :: tl'))[1]?
        (List.replicate (f0.1.width * f0.1.height) 255) with
    | error e => rw [hc] at hok; exact absurd hok (by simp)
    | ok m1 =>
      rw [hc] at hok
      simp only [Option.getD_none] at hok
      cases hrec : mfLoop K s 1 p.1 p.2 tl'
          (some (mfBody K s 0 f0.1 f0.2 (newScreen f0.1.width f0.1.height) m1).2.2.1)
          (mfBody K s 0 f0.1 f0.2 (newScreen f0.1.width f0.1.height) m1).2.2.2 with
      | error e => rw [hrec] at hok; exact absurd hok (by simp)
      | ok v =>
        obtain ⟨cs, ps⟩ := v
        rw [hrec] at hok
        rw [Except.ok.injEq, Prod.mk.injEq] at hok
        obtain ⟨hcalls, hpushes⟩ := hok
        subst hcalls; subst hpushes
        obtain ⟨hlc, hlp, hinv⟩ := mfLoop_invariant tl' K s 1 p.1 p.2
          (mfBody K s 0 f0.1 f0.2 (newScreen f0.1.width f0.1.height) m1).2.2.1
          (mfBody K s 0 f0.1 f0.2 (newScreen f0.1.width f0.1.height) m1).2.2.2
          cs ps Nat.one_pos hrec
        refine ⟨by simpa using hlc, by simpa using hlp, ?_⟩
        intro j hj hj'
        cases j with
        | zero =>
          exact ⟨by simp, by simp [mfBody_call_background_zero],
            by simp [mfBody_call_quality_zero], by omega⟩
        | succ j' =>
          have hj2 : j' < cs.length := by simpa using Nat.lt_of_succ_lt_succ hj
          have hj2' : j' < ps.length := by simpa using Nat.lt_of_succ_lt_succ hj'
          obtain ⟨e1, e2, e3, e4⟩ := hinv j' hj2 hj2'
          have hscr : foldBlits (newScreen f0.1.width f0.1.height)
              ((((0, (mfBody K s 0 f0.1 f0.2 (newScreen f0.1.width f0.1.height) m1).2.1) :: ps).take
                  (j'+1)).map Prod.snd) =
              foldBlits (mfBody K s 0 f0.1 f0.2 (newScreen f0.1.width f0.1.height) m1).2.2.1
                ((ps.take j').map Prod.snd) := by
            rw [List.take_succ_cons, List.map_cons, foldBlits_cons, ← mfBody_screen_blit]
          refine ⟨?_, ?_, ?_, ?_⟩
          · simp only [List.getElem_cons_succ, e1]
            omega
          · simp only [List.getElem_cons_succ, if_neg (Nat.succ_ne_zero j')]
            rw [e2, hscr]
          · simp only [List.getElem_cons_succ, if_neg (Nat.succ_ne_zero j')]
            exact e3
          · intro _
            simp only [List.getElem_cons_succ]
            rw [e4, hscr]

/-- C3.  In every successful run, the kernel invocation for frame `i` (the
`i`-th call, and the `i`-th pushed frame carries index `i`) receives
background = the screen state after blitting the quantized frames
`0..i-1` onto the fresh canvas, and no background for `i = 0`; moreover the
previous-based attenuation for frame `i` was computed against that very same
screen state, i.e. the blit of frame `i-1` happened before the attenuation
for frame `i` was computed. -/
theorem background_is_screen_after_prefix (K : Kernel) (s : Settings)
    (f0 : Img RGBA8 × Nat) (tl : List (Img RGBA8 × Nat))
    (calls : List QuantCall) (pushes : List (Nat × GIFFrame))
    (hok : makeFrames K s (f0 :: tl) = .ok (calls, pushes))
    (i : Nat) (hi : i < calls.length) (hi' : i < pushes.length) :
    pushes[i].1 = i ∧
    calls[i].background = (if i = 0 then none else
      some (foldBlits (newScreen f0.1.width f0.1.height) ((pushes.take i).map Prod.snd))) ∧
    (0 < i → calls[i].impMap =
      attenuate (80 + (100 - s.quality) * (100 - s.quality)) calls[i].image.width
        (foldBlits (newScreen f0.1.width f0.1.height) ((pushes.take i).map Prod.snd))
        calls[i].image.rows calls[i].premap) := by
  obtain ⟨-, -, hinv⟩ := makeFrames_invariant K s f0 tl calls pushes hok
  obtain ⟨e1, e2, -, e4⟩ := hinv i hi hi'
  exact ⟨e1, e2, e4⟩

/-- C4.  For quality settings in 1..=100, frame 0 is always quantized with
the upper quality bound 100 regardless of `settings.quality`, and every frame
at index `i > 0` is quantized with quality `settings.quality`. -/
theorem first_frame_quality_100 (K : Kernel) (s : Settings)
    (f0 : Img RGBA8 × Nat) (tl : List (Img RGBA8 × Nat))
    (calls : List QuantCall) (pushes : List (Nat × GIFFrame))
    (_hq1 : 1 ≤ s.quality) (_hq2 : s.quality ≤ 100)
    (hok : makeFrames K s (f0 :: tl) = .ok (calls, pushes))
    (i : Nat) (hi : i < calls.length) :
    calls[i].quality = (if i = 0 then 100 else s.quality) := by
  obtain ⟨hlc, hlp, hinv⟩ := makeFrames_invariant K s f0 tl calls pushes hok
  have hi' : i < pushes.length := by omega
  exact (hinv i hi hi').2.2.1

/-- Frame used by the concrete two-frame witness run. -/
def wF : Img RGBA8 := uniformImg 1 1 pxBlack

/-- Quantized frame produced by `kernel0` in the witness run. -/
def wFrame : GIFFrame := ⟨⟨0, []⟩, [], 1⟩

/-- Kernel call recorded for frame 0 of the witness run. -/
def wCall0 : QuantCall := ⟨wF, [255], [255], none, 100, false⟩

/-- Kernel call recorded for frame 1 of the witness run. -/
def wCall1 : QuantCall := ⟨wF, [255], [255], some [[transparentPx]], 50, false⟩

/-- The two kernel calls of the witness run. -/
def wCalls : List QuantCall := [wCall0, wCall1]

/-- The two pushed frames of the witness run. -/
def wPushes : List (Nat × GIFFrame) := [(0, wFrame), (1, wFrame)]

/-- Witness for C3: the concrete two-frame run, evaluated at call index 1. -/
theorem background_is_screen_after_prefix_witness :
    makeFrames kernel0 settings0 ((wF, 1) :: [(wF, 1)]) = .ok (wCalls, wPushes) ∧
    (1 < wCalls.length ∧ 1 < wPushes.length) ∧
    ((wPushes.get ⟨1, by decide⟩).1 = 1 ∧
      (wCalls.get ⟨1, by decide⟩).background = (if 1 = 0 then none else
        some (foldBlits (newScreen wF.width wF.height) ((wPushes.take 1).map Prod.snd))) ∧
      (0 < 1 → (wCalls.get ⟨1, by decide⟩).impMap =
        attenuate (80 + (100 - settings0.quality) * (100 - settings0.quality))
          (wCalls.get ⟨1, by decide⟩).image.width
          (foldBlits (newScreen wF.width wF.height) ((wPushes.take 1).map Prod.snd))
          (wCalls.get ⟨1, by decide⟩).image.rows (wCalls.get ⟨1, by decide⟩).premap)) :=
  ⟨by decide, ⟨by decide, by decide⟩,
    background_is_screen_after_prefix kernel0 settings0 (wF, 1) [(wF, 1)] wCalls wPushes
      (by decide) 1 (by decide) (by decide)⟩

/-- Witness for C4: in the concrete two-frame run with quality 50, call 0 was
made at quality 100 and call 1 at quality 50. -/
theorem first_frame_quality_100_witness :
    (1 ≤ settings0.quality ∧ settings0.quality ≤ 100) ∧
    makeFrames kernel0 settings0 ((wF, 1) :: [(wF, 1)]) = .ok (wCalls, wPushes) ∧
    (wCalls.get ⟨0, by decide⟩).quality = (if 0 = 0 then 100 else settings0.quality) ∧
    (wCalls.get ⟨1, by decide⟩).quality = (if 1 = 0 then 100 else settings0.quality) :=
  ⟨⟨by decide, by decide⟩, by decide,
    first_frame_quality_100 kernel0 settings0 (wF, 1) [(wF, 1)] wCalls wPushes
      (by decide) (by decide) (by decide) 0 (by decide),
    first_frame_quality_100 kernel0 settings0 (wF, 1) [(wF, 1)] wCalls wPushes
      (by decide) (by decide) (by decide) 1 (by decide)⟩

theorem flatten_length_const {α : Type u} (L : List (List α)) (w : Nat)
    (h : ∀ r ∈ L, r.length = w) : L.flatten.length = w * L.length := by
  induction L with
  | nil => simp
  | cons r L ih =>
    have hr : r.length = w := h r (List.mem_cons_self r L)
    have := ih (fun q hq => h q (List.mem_cons_of_mem r hq))
    simp [this, hr, Nat.mul_succ]
    omega

theorem attenRow_zipWith (minDiff : Nat) (ab : List (RGBA8 × RGBA8)) :
    ∀ (px : List Nat), px.length = ab.length →
      attenRow minDiff px ab =
        List.zipWith (fun a b => attenPix minDiff a.1 a.2 b) ab px := by
  induction ab with
  | nil =>
    intro px hl
    have : px = [] := List.length_eq_zero.mp hl
    subst this
    rfl
  | cons a ab ih =>
    intro px hl
    cases px with
    | nil => simp at hl
    | cons p ps =>
      simp only [attenRow, List.zipWith_cons_cons]
      rw [ih ps (by simpa using hl)]

/-- With matching shapes, the chunked in-place attenuation is the flat
pixelwise zip of the flattened screen and image against the map. -/
theorem attenuate_flat (minDiff w : Nat) (hw : 0 < w) :
    ∀ (sc im : List (List RGBA8)) (m : List Nat),
      (∀ r ∈ sc, r.length = w) → (∀ r ∈ im, r.length = w) →
      sc.length = im.length → m.length = w * sc.length →
      attenuate minDiff w sc im m =
        List.zipWith (fun a b => attenPix minDiff a.1 a.2 b) (sc.flatten.zip im.flatten) m := by
  intro sc
  induction sc with
  | nil =>
    intro im m _ _ hlen hm
    have him : im = [] := List.length_eq_zero.mp hlen.symm
    subst him
    have hm0 : m = [] := List.length_eq_zero.mp (by simpa using hm)
    subst hm0
    rfl
  | cons r sc' ih =>
    intro im m hsc him hlen hm
    cases im with
    | nil => simp at hlen
    | cons q im' =>
      have hr : r.length = w := hsc r (List.mem_cons_self r sc')
      have hq : q.length = w := him q (List.mem_cons_self q im')
      have hm' : w ≤ m.length := by
        rw [hm]
        calc w = w * 1 := by omega
          _ ≤ w * (sc'.length + 1) := Nat.mul_le_mul_left w (by omega)
      cases m with
      | nil => simp at hm'; omega
      | cons x xs =>
        have step : attenuate minDiff w (r :: sc') (q :: im') (x :: xs) =
            attenRow minDiff ((x :: xs).take w) (r.zip q) ++
              attenuateGo minDiff w (sc'.zip im') ((x :: xs).drop w) := rfl
        rw [step]
        have htake : ((x :: xs).take w).length = w := by
          simpa using Nat.min_eq_left hm'
        have hzlen : (r.zip q).length = w := by
          simp [hr, hq]
        have hrow := attenRow_zipWith minDiff (r.zip q) ((x :: xs).take w)
          (by rw [htake, hzlen])
        have hrec : attenuateGo minDiff w (sc'.zip im') ((x :: xs).drop w) =
            List.zipWith (fun a b => attenPix minDiff a.1 a.2 b)
              (sc'.flatten.zip im'.flatten) ((x :: xs).drop w) := by
          have := ih im' ((x :: xs).drop w)
            (fun t ht => hsc t (List.mem_cons_of_mem r ht))
            (fun t ht => him t (List.mem_cons_of_mem q ht))
            (by simpa using hlen)
            (by
              have h1 : ((x :: xs).drop w).length = (x :: xs).length - w := by simp
              have h2 : (x :: xs).length = w * sc'.length + w := by
                rw [hm, List.length_cons]
                ring
              omega)
          simpa [attenuate] using this
        rw [hrow, hrec]
        have hflat : ((r :: sc').flatten.zip ((q :: im').flatten)) =
            r.zip q ++ sc'.flatten.zip im'.flatten := by
          show ((r ++ sc'.flatten).zip (q ++ im'.flatten)) = _
          exact List.zip_append (by rw [hr, hq])
        rw [hflat]
        have hsplit : (x :: xs) = (x :: xs).take w ++ (x :: xs).drop w :=
          (List.take_append_drop w (x :: xs)).symm
        calc List.zipWith (fun a b => attenPix minDiff a.1 a.2 b) (r.zip q) ((x :: xs).take w) ++
              List.zipWith (fun a b => attenPix minDiff a.1 a.2 b)
                (sc'.flatten.zip im'.flatten) ((x :: xs).drop w)
            = List.zipWith (fun a b => attenPix minDiff a.1 a.2 b)
                (r.zip q ++ sc'.flatten.zip im'.flatten)
                ((x :: xs).take w ++ (x :: xs).drop w) := by
              rw [List.zipWith_append _ _ _ _ _ (by rw [htake, hzlen])]
          _ = List.zipWith (fun a b => attenPix minDiff a.1 a.2 b)
                (r.zip q ++ sc'.flatten.zip im'.flatten) (x :: xs) := by
              rw [← hsplit]

/-- C5.  For a frame at index `i > 0` (quality in 1..=100, `q` = 100 −
quality, `min_diff` = 80 + q·q), the in-place attenuation of the importance
map satisfies, for every pixel position `p` with `d` the color difference
between screen and current frame at `p`: the new value is 0 when
`d < min_diff` and `min(256, (d/32)·(d/32)) · imp[p] / 256` otherwise —
stated both as a whole-buffer equality and pointwise. -/
theorem attenuation_formula (s : Settings) (_hq1 : 1 ≤ s.quality) (_hq2 : s.quality ≤ 100)
    (w : Nat) (hw : 0 < w) (sc im : List (List RGBA8)) (m : List Nat)
    (hsc : ∀ r ∈ sc, r.length = w) (him : ∀ r ∈ im, r.length = w)
    (hlen : sc.length = im.length) (hm : m.length = w * sc.length) :
    attenuate (80 + (100 - s.quality) * (100 - s.quality)) w sc im m =
      List.zipWith (fun a b =>
        if colordiff a.1 a.2 < 80 + (100 - s.quality) * (100 - s.quality) then 0
        else min 256 (colordiff a.1 a.2 / 32 * (colordiff a.1 a.2 / 32)) * b / 256)
        (sc.flatten.zip im.flatten) m ∧
    (∀ p, p < m.length →
      (attenuate (80 + (100 - s.quality) * (100 - s.quality)) w sc im m).getD p 0 =
        (if colordiff (sc.flatten.getD p transparentPx) (im.flatten.getD p transparentPx) <
            80 + (100 - s.quality) * (100 - s.quality) then 0
         else min 256 (colordiff (sc.flatten.getD p transparentPx)
              (im.flatten.getD p transparentPx) / 32 *
            (colordiff (sc.flatten.getD p transparentPx)
              (im.flatten.getD p transparentPx) / 32)) * m.getD p 0 / 256)) := by
  have hfun : (fun (a : RGBA8 × RGBA8) (b : Nat) =>
      attenPix (80 + (100 - s.quality) * (100 - s.quality)) a.1 a.2 b) =
      (fun (a : RGBA8 × RGBA8) (b : Nat) =>
        if colordiff a.1 a.2 < 80 + (100 - s.quality) * (100 - s.quality) then 0
        else min 256 (colordiff a.1 a.2 / 32 * (colordiff a.1 a.2 / 32)) * b / 256) := by
    funext a b
    simp only [attenPix, Nat.min_comm]
  have h1 : attenuate (80 + (100 - s.quality) * (100 - s.quality)) w sc im m =
      List.zipWith (fun a b =>
        if colordiff a.1 a.2 < 80 + (100 - s.quality) * (100 - s.quality) then 0
        else min 256 (colordiff a.1 a.2 / 32 * (colordiff a.1 a.2 / 32)) * b / 256)
        (sc.flatten.zip im.flatten) m := by
    rw [attenuate_flat _ w hw sc im m hsc him hlen hm, hfun]
  refine ⟨h1, ?_⟩
  intro p hp
  have hlsc : sc.flatten.length = w * sc.length := flatten_length_const sc w hsc
  have hlim : im.flatten.length = w * im.length := flatten_length_const im w him
  have hesc : sc.flatten.length = m.length := by rw [hlsc, hm]
  have heim : im.flatten.length = m.length := by rw [hlim, ← hlen, ← hm]
  have hp1 : p < sc.flatten.length := by omega
  have hp2 : p < im.flatten.length := by omega
  have hzl : (sc.flatten.zip im.flatten).length = m.length := by
    rw [List.length_zip]
    omega
  have hwl : (List.zipWith (fun (a : RGBA8 × RGBA8) (b : Nat) =>
      if colordiff a.1 a.2 < 80 + (100 - s.quality) * (100 - s.quality) then 0
      else min 256 (colordiff a.1 a.2 / 32 * (colordiff a.1 a.2 / 32)) * b / 256)
      (sc.flatten.zip im.flatten) m).length = m.length := by
    rw [List.length_zipWith]
    omega
  have hplt : p < (List.zipWith (fun (a : RGBA8 × RGBA8) (b : Nat) =>
      if colordiff a.1 a.2 < 80 + (100 - s.quality) * (100 - s.quality) then 0
      else min 256 (colordiff a.1 a.2 / 32 * (colordiff a.1 a.2 / 32)) * b / 256)
      (sc.flatten.zip im.flatten) m).length := by
    rw [hwl]
    exact hp
  rw [h1, List.getD_eq_getElem _ _ hplt]
  rw [List.getElem_zipWith]
  rw [List.getElem_zip]
  rw [List.getD_eq_getElem sc.flatten transparentPx hp1,
    List.getD_eq_getElem im.flatten transparentPx hp2,
    List.getD_eq_getElem m 0 hp]

/-- Witness for C5 at a concrete one-pixel buffer: screen transparent, frame
black, prior importance 7. -/
theorem attenuation_formula_witness :
    (1 ≤ settings0.quality ∧ settings0.quality ≤ 100 ∧ 0 < 1) ∧
    attenuate (80 + (100 - settings0.quality) * (100 - settings0.quality)) 1
        [[transparentPx]] [[pxBlack]] [7] =
      List.zipWith (fun a b =>
        if colordiff a.1 a.2 < 80 + (100 - settings0.quality) * (100 - settings0.quality) then 0
        else min 256 (colordiff a.1 a.2 / 32 * (colordiff a.1 a.2 / 32)) * b / 256)
        ((([[transparentPx]] : List (List RGBA8)).flatten).zip
          (([[pxBlack]] : List (List RGBA8)).flatten)) [7] :=
  ⟨⟨by decide, by decide, by decide⟩,
    (attenuation_formula settings0 (by decide) (by decide) 1 (by decide)
      [[transparentPx]] [[pxBlack]] [7] (by decide) (by decide) (by decide) (by decide)).1⟩
